import Mathlib

/-!
Verification of the Ollama-Web-UI streaming client.

This file shallowly embeds the stream-ingestion code of the repository:

* `normalizeHost`            — src/services/ollamaService.ts, lines 4-12
* `streamChat`'s decode loop — src/services/ollamaService.ts, lines 81-109
  (per-chunk newline split, per-line `JSON.parse`, truthiness-gated
  `onChunk(json.message.content)`, `console.warn` on parse failure)
* the `onChunk` / `onDone` / `onError` handlers of `handleSendMessage`
  (App component), which append to the assistant message with matching id
* the `<think>` reasoning splitter of the `ChatBubble` component
  (regex `<think>([\s\S]*?)(?:<\/think>|$)` match and first-occurrence
  replacement)

Text is modelled as `List Char` (the code operates on decoded JS strings;
fragments are taken after `TextDecoder` decoding).  `JSON.parse` is embedded
as a recursive-descent parser `jsonParse` over the JSON subset the protocol
exercises: `null`, booleans, integer numbers, strings with the common
escapes, and objects (arrays, fractional/exponent numbers and `\u` escapes
do not occur in any protocol record or claim input).  As in JS, a parse
succeeds only if the whole input (modulo surrounding JSON whitespace) is one
value, and for duplicate object keys the last occurrence wins.
-/

mutual

/-- A JSON value (subset exercised by the streaming protocol). -/
inductive Json where
  | null : Json
  | bool (b : Bool) : Json
  | num (n : Int) : Json
  | str (s : List Char) : Json
  | obj (fields : JFields) : Json
deriving DecidableEq, Repr

/-- The (ordered) member list of a JSON object. -/
inductive JFields where
  | nil : JFields
  | cons (key : List Char) (value : Json) (rest : JFields) : JFields
deriving DecidableEq, Repr

end

/-- Build a member list from a `List` of key/value pairs. -/
def JFields.ofList : List (List Char × Json) → JFields
  | [] => .nil
  | (k, v) :: t => .cons k v (JFields.ofList t)

/-- JSON insignificant whitespace: space, tab, newline, carriage return
(this is exactly `Char.isWhitespace`). -/
def isJsonWs (c : Char) : Bool := c.isWhitespace

/-- Drop leading JSON whitespace. -/
def skipWs (cs : List Char) : List Char := cs.dropWhile isJsonWs

/-- Parse the inside of a JSON string literal (after the opening quote),
handling the escape sequences used by the protocol; returns the decoded
characters and the remainder after the closing quote. -/
def parseStrAux : List Char → List Char → Option (List Char × List Char)
  | [], _ => none
  | '\x22' :: rest, acc => some (acc.reverse, rest)
  | '\\' :: e :: rest, acc =>
    match e with
    | '\x22' => parseStrAux rest ('\x22' :: acc)
    | '\\' => parseStrAux rest ('\\' :: acc)
    | '/' => parseStrAux rest ('/' :: acc)
    | 'n' => parseStrAux rest ('\n' :: acc)
    | 't' => parseStrAux rest ('\t' :: acc)
    | 'r' => parseStrAux rest ('\r' :: acc)
    | 'b' => parseStrAux rest ('\x08' :: acc)
    | 'f' => parseStrAux rest ('\x0c' :: acc)
    | _ => none
  | '\\' :: [], _ => none
  | c :: rest, acc => parseStrAux rest (c :: acc)

/-- Parse a run of decimal digits into a natural number; fails on an empty
run. -/
def parseDigits (cs : List Char) : Option (Nat × List Char) :=
  let ds := cs.takeWhile Char.isDigit
  let rest := cs.dropWhile Char.isDigit
  if ds.isEmpty then none
  else some (ds.foldl (fun n c => 10 * n + (c.toNat - 48)) 0, rest)

mutual

/-- Recursive-descent JSON value parser (fuel-indexed; the fuel only bounds
nesting-driven recursion and is chosen large enough in `jsonParse`). -/
def parseVal : Nat → List Char → Option (Json × List Char)
  | 0, _ => none
  | Nat.succ f, cs =>
    match skipWs cs with
    | 'n' :: 'u' :: 'l' :: 'l' :: rest => some (Json.null, rest)
    | 't' :: 'r' :: 'u' :: 'e' :: rest => some (Json.bool true, rest)
    | 'f' :: 'a' :: 'l' :: 's' :: 'e' :: rest => some (Json.bool false, rest)
    | '\x22' :: rest =>
      match parseStrAux rest [] with
      | some (s, rest2) => some (Json.str s, rest2)
      | none => none
    | '\x7b' :: rest => parseObjItems f (skipWs rest) []
    | '-' :: rest =>
      match parseDigits rest with
      | some (n, rest2) => some (Json.num (-(n : Int)), rest2)
      | none => none
    | c :: rest =>
      if c.isDigit then
        match parseDigits (c :: rest) with
        | some (n, rest2) => some (Json.num (n : Int), rest2)
        | none => none
      else none
    | [] => none

/-- Parse object members after `\x7b` (the argument starts at a key, at the
closing brace of an empty object, or just after a comma). -/
def parseObjItems : Nat → List Char → List (List Char × Json) →
    Option (Json × List Char)
  | 0, _, _ => none
  | Nat.succ f, cs, acc =>
    match cs with
    | '\x7d' :: rest =>
      if acc.isEmpty then some (Json.obj .nil, rest) else none
    | '\x22' :: rest =>
      match parseStrAux rest [] with
      | some (k, rest2) =>
        match skipWs rest2 with
        | ':' :: rest3 =>
          match parseVal f rest3 with
          | some (v, rest4) =>
            match skipWs rest4 with
            | ',' :: rest5 => parseObjItems f (skipWs rest5) ((k, v) :: acc)
            | '\x7d' :: rest5 =>
              some (Json.obj (JFields.ofList (((k, v) :: acc).reverse)), rest5)
            | _ => none
          | none => none
        | _ => none
      | none => none
    | _ => none

end

/-- Model of `JSON.parse(line)`: parse one value, allow surrounding JSON
whitespace, reject anything left over (returns `none` where `JSON.parse`
throws). -/
def jsonParse (cs : List Char) : Option Json :=
  match parseVal (2 * cs.length + 4) cs with
  | some (v, rest) => if (skipWs rest).isEmpty then some v else none
  | none => none

/-- Last-wins member lookup: JS property access on an object built by
`JSON.parse` sees the value of the last duplicate key. -/
def JFields.lookupLast : JFields → List Char → Option Json
  | .nil, _ => none
  | .cons k v rest, key =>
    match rest.lookupLast key with
    | some r => some r
    | none => if k = key then some v else none

/-- `j.getField k` models the JS property access `j.k`: `none` stands for
`undefined` (property access on a non-object JSON value of this subset
never yields a defined own property). -/
def Json.getField (j : Json) (k : List Char) : Option Json :=
  match j with
  | .obj fs => fs.lookupLast k
  | _ => none

/-- JS truthiness of a JSON value: `null`, `false`, `0` and `\x22\x22` are
falsy, everything else truthy. -/
def jsTruthy : Json → Bool
  | .null => false
  | .bool b => b
  | .num n => !(n == 0)
  | .str s => !s.isEmpty
  | .obj _ => true

/-- JS string coercion `String(v)` of a JSON value (used because
`msg.content + chunk` coerces a non-string chunk).  Objects stringify to
`[object Object]`. -/
def jsToString : Json → List Char
  | .null => "null".data
  | .bool b => if b then "true".data else "false".data
  | .num n => (toString n).data
  | .str s => s
  | .obj _ => "[object Object]".data

/-- Model of the emission guard in `streamChat`
(src/services/ollamaService.ts, lines 97-99):
`if (json.message && json.message.content) onChunk(json.message.content);`
— returns the chunk passed to `onChunk`, if any. -/
def deltaOf (j : Json) : Option (List Char) :=
  match j.getField ("message".data) with
  | none => none
  | some m =>
    if jsTruthy m then
      match m.getField ("content".data) with
      | none => none
      | some c => if jsTruthy c then some (jsToString c) else none
    else none

/-- `text.split('\n')` of JS: split on every newline, keeping empty
segments (`\x22\x22.split('\n')` is `[\x22\x22]`). -/
def splitNl : List Char → List (List Char)
  | [] => [[]]
  | c :: t =>
    if c = '\n' then [] :: splitNl t
    else
      match splitNl t with
      | [] => [[c]]
      | l :: ls => (c :: l) :: ls

/-- JS `!line.trim()`: the line is empty or all whitespace.  (`trim`
strips whitespace from both ends, so trimming yields the empty string
exactly when every character is whitespace.) -/
def isBlank (cs : List Char) : Bool := cs.all isJsonWs

/-- One iteration of the per-line loop in `streamChat` (lines 93-107):
blank lines are skipped, any other line is given to `JSON.parse`; a parse
failure is only `console.warn`ed, producing no record. -/
def lineRecord (cs : List Char) : Option Json :=
  if isBlank cs then none else jsonParse cs

/-- The records decoded from one transport chunk: the chunk's text is
split on newlines and each line parsed independently — `streamChat` keeps
no carry-over buffer between chunks. -/
def chunkRecords (cs : List Char) : List Json :=
  (splitNl cs).filterMap lineRecord

/-- Decoding a stream delivered as a list of chunks: per-chunk decoding,
concatenated in arrival order. -/
def decodeFragments (fs : List (List Char)) : List Json :=
  (fs.map chunkRecords).flatten

/-- A semantic stream event: the calls `streamChat` makes to the supplied
`onChunk` / `onDone` / `onError` callbacks, in order. -/
inductive Ev where
  | delta (text : List Char) : Ev
  | done : Ev
  | errorEv (emsg : List Char) : Ev
deriving DecidableEq, Repr

/-- The `onChunk` calls produced by a list of decoded records. -/
def recordEvents (rs : List Json) : List Ev :=
  rs.filterMap (fun j => (deltaOf j).map Ev.delta)

/-- All callback events produced while processing one transport chunk. -/
def chunkEvents (cs : List Char) : List Ev :=
  recordEvents (chunkRecords cs)

/-- How the response body stream ends: normal end-of-stream
(`reader.read()` reports `done`), or a mid-stream read failure (the await
throws). -/
inductive BodyEnd where
  | eof : BodyEnd
  | readError (emsg : List Char) : BodyEnd
deriving DecidableEq, Repr

/-- A fetch response: its numeric status, the text `response.text()`
would yield, and its body — `none` models `response.body === null`,
otherwise the chunks successfully read, with how reading ended. -/
structure Resp where
  status : Nat
  bodyText : List Char
  body : Option (List (List Char) × BodyEnd)
deriving DecidableEq, Repr

/-- Outcome of `fetch`: the promise rejects (network failure, with the
error's message), or resolves to a response. -/
inductive FetchResult where
  | netError (emsg : List Char) : FetchResult
  | success (r : Resp) : FetchResult
deriving DecidableEq, Repr

/-- `response.ok`: status in the inclusive range 200-299. -/
def isOkStatus (n : Nat) : Bool := 200 ≤ n && n ≤ 299

/-- The message of the error thrown on a non-success status
(src/services/ollamaService.ts, line 73). -/
def ollamaErrMsg (status : Nat) (bodyText : List Char) : List Char :=
  "Ollama Error (".data ++ (toString status).data ++ "): ".data ++ bodyText

/-- Shallow embedding of `streamChat` (src/services/ollamaService.ts,
lines 47-113) as the ordered list of callback invocations it performs for
a given transport outcome:

* `fetch` rejects → the `catch` invokes `onError` once;
* non-success status → the thrown `Ollama Error` is caught, `onError`;
* `response.body` null → the thrown `No response body` is caught, `onError`;
* otherwise each read chunk is decoded (`chunkEvents`), then `onDone` at
  end-of-stream, or `onError` if a mid-stream read throws. -/
def streamChatEvents : FetchResult → List Ev
  | .netError e => [Ev.errorEv e]
  | .success r =>
    if isOkStatus r.status then
      match r.body with
      | none => [Ev.errorEv ("No response body".data)]
      | some (chunks, bend) =>
        (chunks.map chunkEvents).flatten ++
          (match bend with
           | .eof => [Ev.done]
           | .readError e => [Ev.errorEv e])
    else [Ev.errorEv (ollamaErrMsg r.status r.bodyText)]

/-- The records `streamChat` successfully decodes for a given transport
outcome (no body processing happens on the error paths). -/
def streamChatRecords : FetchResult → List Json
  | .netError _ => []
  | .success r =>
    if isOkStatus r.status then
      match r.body with
      | none => []
      | some (chunks, _) => decodeFragments chunks
    else []

/-- One conversation message, as in the `Message` type of the app
(role, content, optional images, timestamp, id). -/
structure Msg where
  role : String
  content : List Char
  images : Option (List String)
  timestamp : Nat
  id : String
deriving DecidableEq, Repr

/-- The error annotation `handleSendMessage` appends on `onError`
(App component): `\n\n*[Error: ` + `error.message` + `]*`. -/
def errAnnot (e : List Char) : List Char :=
  "\n\n*[Error: ".data ++ e ++ "]*".data

/-- One state update of `handleSendMessage`'s callbacks: `onChunk` maps
over the messages appending the chunk to the one whose id matches the
exchange's assistant id; `onDone` only clears the loading flag; `onError`
appends the error annotation to the matching message. -/
def applyEv (aid : String) (ms : List Msg) : Ev → List Msg
  | .delta c => ms.map (fun m => if m.id = aid then { m with content := m.content ++ c } else m)
  | .done => ms
  | .errorEv e => ms.map (fun m => if m.id = aid then { m with content := m.content ++ errAnnot e } else m)

/-- Folding a whole exchange's events over the conversation state. -/
def applyEvents (aid : String) (evs : List Ev) (ms : List Msg) : List Msg :=
  evs.foldl (applyEv aid) ms

/-- The reasoning-open marker. -/
def OPENTAG : List Char := "<think>".data

/-- The reasoning-close marker. -/
def CLOSETAG : List Char := "</think>".data

/-- Index of the first occurrence of `pat` as a contiguous substring of
`s` (the position where a JS regex made of the literal `pat` would
match). -/
def findSub (pat : List Char) : List Char → Option Nat
  | [] => if pat.isPrefixOf [] then some 0 else none
  | c :: t =>
    if pat.isPrefixOf (c :: t) then some 0
    else (findSub pat t).map (· + 1)

/-- Shallow embedding of the reasoning splitter in the `ChatBubble`
component (src/unnamed/part_000, lines 19-31):

`mainContent.match(/<think>([\s\S]*?)(?:<\/think>|$)/)` takes, at the
first occurrence of `<think>`, the lazily shortest content ending at the
first following `</think>` or at the end of the text, and
`mainContent.replace(/<think>[\s\S]*?(?:<\/think>|$)/, '')` removes that
same first-matched region.  Returns
(reasoning segment `thinkContent` if the regex matched, body
`mainContent` after the replacement). -/
def splitThink (cs : List Char) : Option (List Char) × List Char :=
  match findSub OPENTAG cs with
  | none => (none, cs)
  | some i =>
    let rest := (cs.drop (i + OPENTAG.length))
    match findSub CLOSETAG rest with
    | none => (some rest, cs.take i)
    | some j => (some (rest.take j), cs.take i ++ rest.drop (j + CLOSETAG.length))

/-- Character-level model of JS `host.trim()`: strip whitespace from both
ends. -/
def jsTrim (cs : List Char) : List Char :=
  ((cs.dropWhile isJsonWs).reverse.dropWhile isJsonWs).reverse

/-- `^https?:\/\/` test of `normalizeHost`: the string starts with
`http://` or `https://`. -/
def hasScheme (cs : List Char) : Bool :=
  ("http://".data).isPrefixOf cs || ("https://".data).isPrefixOf cs

/-- The scheme-prepending step of `normalizeHost` (lines 7-9). -/
def withScheme (cs : List Char) : List Char :=
  if hasScheme cs then cs else "http://".data ++ cs

/-- `normalized.replace(/\/$/, '')`: remove one trailing slash, if
present (line 11). -/
def stripOneTrailingSlash (cs : List Char) : List Char :=
  if cs.getLast? = some '/' then cs.dropLast else cs

/-- Shallow embedding of `normalizeHost`
(src/services/ollamaService.ts, lines 4-12): trim, default the scheme to
`http://`, drop a single trailing slash. -/
def normalizeHostCore (cs : List Char) : List Char :=
  stripOneTrailingSlash (withScheme (jsTrim cs))

/-- String-level wrapper of `normalizeHostCore`, matching the source
signature. -/
def normalizeHost (host : String) : String :=
  ⟨normalizeHostCore host.data⟩

/-- C1: the claimed chunk-boundary invariance fails on the code: there is
no carry-over buffer, so splitting the payload
`\x7b\x22done\x22:true\x7d\n` into two fragments inside the JSON value
decodes to no records at all, while the whole payload delivered as a
single fragment decodes to the one record — the decoded sequences differ.
(The source itself remarks at src/services/ollamaService.ts lines 104-105
that a production app needs a buffer.) -/
theorem frameDecoder_drops_record_split_inside_value :
  decodeFragments ["\x7b\x22done\x22".data, ":true\x7d\n".data] = []
  ∧ decodeFragments ["\x7b\x22done\x22:true\x7d\n".data]
      = [Json.obj (JFields.cons ("done".data) (Json.bool true) JFields.nil)] := by
  decide

/-- C3: on a payload whose middle line is syntactically invalid, the code
does decode the surrounding valid lines in order and does not abort — but
it surfaces no decode-error signal whatsoever through its output: the
callback sequence is exactly two content deltas followed by `Done`, with
no error-tagged element (the malformed line is only `console.warn`ed). -/
theorem malformedLine_yields_no_error_event :
  streamChatEvents (FetchResult.success
      ⟨200, [],
        some ([("\x7b\x22message\x22:\x7b\x22content\x22:\x22A\x22\x7d\x7d\nnotjson\n\x7b\x22message\x22:\x7b\x22content\x22:\x22B\x22\x7d\x7d\n".data)],
          BodyEnd.eof)⟩)
    = [Ev.delta ("A".data), Ev.delta ("B".data), Ev.done] := by
  decide

/-- C4: splitter boundary behaviour — `<think>abc</think>def` yields
reasoning `abc` and body `def`; `<think>abc` (no close marker) yields
reasoning `abc` and empty body; text with no open marker yields no
reasoning segment and the whole text as body. -/
theorem splitThink_boundary_cases :
  splitThink ("<think>abc</think>def".data) = (some ("abc".data), "def".data)
  ∧ splitThink ("<think>abc".data) = (some ("abc".data), [])
  ∧ splitThink ("plain text".data) = (none, "plain text".data) := by
  decide

/-- C9 counterexample: `normalizeHost` removes at most one trailing
slash, so the input `http://localhost//` normalizes to
`http://localhost/`, which still ends with a slash — refuting the claimed
postcondition that the output never ends with a slash. -/
theorem normalizeHost_trailing_slash_counterexample :
  normalizeHost "http://localhost//" = "http://localhost/"
  ∧ (normalizeHost "http://localhost//").data.getLast? = some '/' := by
  decide

/-- `Done` events. -/
def isDoneEv : Ev → Bool
  | .done => true
  | _ => false

/-- `Error` events. -/
def isErrEv : Ev → Bool
  | .errorEv _ => true
  | _ => false

/-- Every event produced while decoding a chunk is a content delta. -/
theorem chunkEvents_mem_delta {cs : List Char} {ev : Ev}
    (h : ev ∈ chunkEvents cs) : ∃ t, ev = Ev.delta t := by
  rcases List.mem_filterMap.mp h with ⟨j, _, hmap⟩
  rcases Option.map_eq_some'.mp hmap with ⟨t, _, h2⟩
  exact ⟨t, h2.symm⟩

/-- Chunk decoding contributes no `Done` events. -/
theorem countP_done_chunks (chunks : List (List Char)) :
    ((chunks.map chunkEvents).flatten.countP isDoneEv) = 0 := by
  rw [List.countP_eq_zero]
  intro ev hev
  rcases List.mem_flatten.mp hev with ⟨l, hl, hevl⟩
  rcases List.mem_map.mp hl with ⟨cs, _, rfl⟩
  rcases chunkEvents_mem_delta hevl with ⟨t, rfl⟩
  simp [isDoneEv]

/-- Chunk decoding contributes no `Error` events. -/
theorem countP_err_chunks (chunks : List (List Char)) :
    ((chunks.map chunkEvents).flatten.countP isErrEv) = 0 := by
  rw [List.countP_eq_zero]
  intro ev hev
  rcases List.mem_flatten.mp hev with ⟨l, hl, hevl⟩
  rcases List.mem_map.mp hl with ⟨cs, _, rfl⟩
  rcases chunkEvents_mem_delta hevl with ⟨t, rfl⟩
  simp [isErrEv]

/-- C5: exactly-once completion signalling — for every transport outcome
(network failure, non-success status, missing body, mid-stream read
failure, or normal end-of-stream), the callback sequence of `streamChat`
contains exactly one `Done`-or-`Error` event: `onDone` and `onError`
never both fire and never neither. -/
theorem streamChat_exactly_one_completion (r : FetchResult) :
    (streamChatEvents r).countP isDoneEv
      + (streamChatEvents r).countP isErrEv = 1 := by
  cases r with
  | netError e =>
    simp [streamChatEvents, List.countP_cons, isDoneEv, isErrEv]
  | success resp =>
    cases hok : isOkStatus resp.status with
    | false =>
      simp [streamChatEvents, hok, List.countP_cons, isDoneEv, isErrEv]
    | true =>
      cases hb : resp.body with
      | none =>
        simp [streamChatEvents, hok, hb, List.countP_cons, isDoneEv, isErrEv]
      | some cb =>
        obtain ⟨chunks, bend⟩ := cb
        cases bend with
        | eof =>
          have hev : streamChatEvents (FetchResult.success resp)
              = (chunks.map chunkEvents).flatten ++ [Ev.done] := by
            simp [streamChatEvents, hok, hb]
          rw [hev, List.countP_append, List.countP_append,
            countP_done_chunks, countP_err_chunks]
          simp [List.countP_cons, isDoneEv, isErrEv]
        | readError e =>
          have hev : streamChatEvents (FetchResult.success resp)
              = (chunks.map chunkEvents).flatten ++ [Ev.errorEv e] := by
            simp [streamChatEvents, hok, hb]
          rw [hev, List.countP_append, List.countP_append,
            countP_done_chunks, countP_err_chunks]
          simp [List.countP_cons, isDoneEv, isErrEv]

/-- C6: on a non-success HTTP status the exchange produces the single
`Error` event whose message is built from the numeric status code and the
response body text (both occur verbatim inside it), and the body is never
processed as a stream: no record is decoded and no content delta is
emitted. -/
theorem nonSuccessStatus_single_error (status : Nat) (bodyText : List Char)
    (body : Option (List (List Char) × BodyEnd))
    (h : isOkStatus status = false) :
    streamChatEvents (FetchResult.success ⟨status, bodyText, body⟩)
        = [Ev.errorEv (ollamaErrMsg status bodyText)]
    ∧ (∃ pre post,
        ollamaErrMsg status bodyText = pre ++ (toString status).data ++ post)
    ∧ (∃ pre, ollamaErrMsg status bodyText = pre ++ bodyText)
    ∧ streamChatRecords (FetchResult.success ⟨status, bodyText, body⟩) = [] := by
  refine ⟨?_, ⟨"Ollama Error (".data, "): ".data ++ bodyText, ?_⟩,
    ⟨"Ollama Error (".data ++ (toString status).data ++ "): ".data, ?_⟩, ?_⟩
  · simp [streamChatEvents, h]
  · simp [ollamaErrMsg, List.append_assoc]
  · simp [ollamaErrMsg, List.append_assoc]
  · simp [streamChatRecords, h]

/-- Witness for C6 at Scenario B of the spec: status 500 with body
`model not found`. -/
theorem nonSuccessStatus_single_error_witness :
    isOkStatus 500 = false
    ∧ (streamChatEvents (FetchResult.success
          ⟨500, "model not found".data, none⟩)
          = [Ev.errorEv (ollamaErrMsg 500 ("model not found".data))]
      ∧ (∃ pre post, ollamaErrMsg 500 ("model not found".data)
            = pre ++ (toString 500).data ++ post)
      ∧ (∃ pre, ollamaErrMsg 500 ("model not found".data)
            = pre ++ "model not found".data)
      ∧ streamChatRecords (FetchResult.success
          ⟨500, "model not found".data, none⟩) = []) :=
  ⟨by decide, nonSuccessStatus_single_error 500 ("model not found".data) none (by decide)⟩

/-- A delta update seen at the position of the matching message: content
gets the chunk appended, every other field is kept. -/
theorem applyDelta_at_target {aid : String} {ms : List Msg} {i : Nat}
    {m : Msg} (hm : ms[i]? = some m) (hid : m.id = aid) (c : List Char) :
    (applyEv aid ms (Ev.delta c))[i]?
      = some { m with content := m.content ++ c } := by
  show (ms.map fun m =>
    if m.id = aid then { m with content := m.content ++ c } else m)[i]? = _
  rw [List.getElem?_map, hm]
  simp [hid]

/-- A delta update seen at the position of a non-matching message: the
message is unchanged. -/
theorem applyDelta_at_other {aid : String} {ms : List Msg} {i : Nat}
    {m : Msg} (hm : ms[i]? = some m) (hid : m.id ≠ aid) (c : List Char) :
    (applyEv aid ms (Ev.delta c))[i]? = some m := by
  show (ms.map fun m =>
    if m.id = aid then { m with content := m.content ++ c } else m)[i]? = _
  rw [List.getElem?_map, hm]
  simp [hid]

/-- An error-annotation update seen at the position of the matching
message. -/
theorem applyErr_at_target {aid : String} {ms : List Msg} {i : Nat}
    {m : Msg} (hm : ms[i]? = some m) (hid : m.id = aid) (e : List Char) :
    (applyEv aid ms (Ev.errorEv e))[i]?
      = some { m with content := m.content ++ errAnnot e } := by
  show (ms.map fun m =>
    if m.id = aid then { m with content := m.content ++ errAnnot e } else m)[i]? = _
  rw [List.getElem?_map, hm]
  simp [hid]

/-- An error-annotation update seen at the position of a non-matching
message. -/
theorem applyErr_at_other {aid : String} {ms : List Msg} {i : Nat}
    {m : Msg} (hm : ms[i]? = some m) (hid : m.id ≠ aid) (e : List Char) :
    (applyEv aid ms (Ev.errorEv e))[i]? = some m := by
  show (ms.map fun m =>
    if m.id = aid then { m with content := m.content ++ errAnnot e } else m)[i]? = _
  rw [List.getElem?_map, hm]
  simp [hid]

/-- C7: when an exchange ends with an `Error` event, the assistant turn's
text afterwards is exactly the content it had accumulated before the
error — preserved unchanged — with the error annotation appended; its
other fields are untouched.  (`pre` are the events applied before the
error, so the statement covers an error after any partial stream.) -/
theorem errorFinalization_keeps_prior_content (aid : String) (ms : List Msg)
    (pre : List Ev) (e : List Char) (i : Nat) (m : Msg)
    (hm : (applyEvents aid pre ms)[i]? = some m) (hid : m.id = aid) :
    (applyEvents aid (pre ++ [Ev.errorEv e]) ms)[i]?
      = some { m with content := m.content ++ errAnnot e } := by
  unfold applyEvents at hm ⊢
  rw [List.foldl_append]
  simp only [List.foldl_cons, List.foldl_nil]
  exact applyErr_at_target hm hid e

/-- Witness for C7: two deltas stream in, then a mid-stream error; the
turn keeps `Hello` and gains the annotation. -/
theorem errorFinalization_keeps_prior_content_witness :
    (applyEvents "a1" [Ev.delta ("Hel".data), Ev.delta ("lo".data)]
        [⟨"user", "hi".data, none, 1, "u1"⟩,
         ⟨"assistant", [], none, 2, "a1"⟩])[1]?
      = some ⟨"assistant", "Hello".data, none, 2, "a1"⟩
    ∧ (⟨"assistant", "Hello".data, none, 2, "a1"⟩ : Msg).id = "a1"
    ∧ (applyEvents "a1"
          ([Ev.delta ("Hel".data), Ev.delta ("lo".data)]
            ++ [Ev.errorEv ("boom".data)])
          [⟨"user", "hi".data, none, 1, "u1"⟩,
           ⟨"assistant", [], none, 2, "a1"⟩])[1]?
        = some { (⟨"assistant", "Hello".data, none, 2, "a1"⟩ : Msg) with
            content := "Hello".data ++ errAnnot ("boom".data) } :=
  ⟨by decide, by decide,
    errorFinalization_keeps_prior_content "a1"
      [⟨"user", "hi".data, none, 1, "u1"⟩, ⟨"assistant", [], none, 2, "a1"⟩]
      [Ev.delta ("Hel".data), Ev.delta ("lo".data)] ("boom".data) 1
      ⟨"assistant", "Hello".data, none, 2, "a1"⟩ (by decide) (by decide)⟩

/-- C10: frame property of one accumulator update — for any single event
(delta append, done, or error annotation), the message list keeps its
length, every message at a position holding a non-matching id is entirely
unchanged (role, content, images, timestamp, id, and its position), and
the message with the matching id changes at most its content. -/
theorem accumulator_frame (aid : String) (ms : List Msg) (ev : Ev)
    (i : Nat) (m : Msg) (hm : ms[i]? = some m) :
    (applyEv aid ms ev).length = ms.length
    ∧ (m.id ≠ aid → (applyEv aid ms ev)[i]? = some m)
    ∧ (m.id = aid → ∃ c, (applyEv aid ms ev)[i]?
        = some { m with content := c }) := by
  cases ev with
  | delta c =>
    exact ⟨by simp [applyEv], fun h => applyDelta_at_other hm h c,
      fun h => ⟨m.content ++ c, applyDelta_at_target hm h c⟩⟩
  | done =>
    exact ⟨rfl, fun _ => hm, fun _ => ⟨m.content, hm⟩⟩
  | errorEv e =>
    exact ⟨by simp [applyEv], fun h => applyErr_at_other hm h e,
      fun h => ⟨m.content ++ errAnnot e, applyErr_at_target hm h e⟩⟩

/-- Witness for C10: a delta appended during an exchange targeting `a1`
leaves the user message at position 0 untouched. -/
theorem accumulator_frame_witness :
    ([⟨"user", "hi".data, none, 1, "u1"⟩,
      ⟨"assistant", [], none, 2, "a1"⟩] : List Msg)[0]?
        = some ⟨"user", "hi".data, none, 1, "u1"⟩
    ∧ ((applyEv "a1"
          [⟨"user", "hi".data, none, 1, "u1"⟩,
           ⟨"assistant", [], none, 2, "a1"⟩]
          (Ev.delta ("He".data))).length
        = ([⟨"user", "hi".data, none, 1, "u1"⟩,
            ⟨"assistant", [], none, 2, "a1"⟩] : List Msg).length
      ∧ ((⟨"user", "hi".data, none, 1, "u1"⟩ : Msg).id ≠ "a1" →
          (applyEv "a1"
            [⟨"user", "hi".data, none, 1, "u1"⟩,
             ⟨"assistant", [], none, 2, "a1"⟩]
            (Ev.delta ("He".data)))[0]?
          = some ⟨"user", "hi".data, none, 1, "u1"⟩)
      ∧ ((⟨"user", "hi".data, none, 1, "u1"⟩ : Msg).id = "a1" →
          ∃ c, (applyEv "a1"
            [⟨"user", "hi".data, none, 1, "u1"⟩,
             ⟨"assistant", [], none, 2, "a1"⟩]
            (Ev.delta ("He".data)))[0]?
          = some { (⟨"user", "hi".data, none, 1, "u1"⟩ : Msg) with
              content := c })) :=
  ⟨by decide,
    accumulator_frame "a1"
      [⟨"user", "hi".data, none, 1, "u1"⟩, ⟨"assistant", [], none, 2, "a1"⟩]
      (Ev.delta ("He".data)) 0 ⟨"user", "hi".data, none, 1, "u1"⟩ (by decide)⟩

/-- The `message.content` field of a record, as a string (empty when the
record carries none). -/
def contentField (j : Json) : List Char :=
  match j.getField ("message".data) with
  | some m =>
    match m.getField ("content".data) with
    | some (Json.str s) => s
    | _ => []
  | none => []

/-- A record is *valid* for claim C2 when its `message.content` field, if
defined, is a string — the shape the protocol specifies
(`\x7b message: \x7b role, content \x7d, done \x7d` with `content` a
string). -/
def validRecord (j : Json) : Bool :=
  match j.getField ("message".data) with
  | some m =>
    match m.getField ("content".data) with
    | some (Json.str _) => true
    | some _ => false
    | none => true
  | none => true

/-- A falsy JSON value is not an object, so property access on it yields
`undefined`. -/
theorem getField_eq_none_of_falsy {m : Json} (h : jsTruthy m = false)
    (k : List Char) : m.getField k = none := by
  cases m with
  | null => rfl
  | bool b => cases b with
    | false => rfl
    | true => simp [jsTruthy] at h
  | num n => rfl
  | str s => rfl
  | obj fs => simp [jsTruthy] at h

/-- For a valid record, the emitted chunk (if any) is exactly its
`message.content` field, and nothing is emitted exactly when that field
is absent or empty. -/
theorem contentField_eq_getD (j : Json) (hv : validRecord j = true) :
    contentField j = (deltaOf j).getD [] := by
  unfold validRecord at hv
  unfold contentField deltaOf
  cases hmsg : j.getField ("message".data) with
  | none => simp [hmsg]
  | some m =>
    rw [hmsg] at hv
    simp only [hmsg]
    cases htr : jsTruthy m with
    | false =>
      simp only [htr, getField_eq_none_of_falsy htr, Bool.false_eq_true,
        if_false]
      rfl
    | true =>
      simp only [htr, if_true]
      cases hc : m.getField ("content".data) with
      | none => simp
      | some c =>
        simp only [hc] at hv ⊢
        cases c with
        | null => simp at hv
        | bool b => simp at hv
        | num n => simp at hv
        | obj fs => simp at hv
        | str s =>
          cases s with
          | nil => simp [jsTruthy]
          | cons c0 s0 => simp [jsTruthy, jsToString]

/-- C2: accumulation preserves order and content verbatim — for any
sequence of valid decoded records processed by one exchange, the
assistant turn's final text is its prior text followed by the
concatenation, in stream order, of the `message.content` fields of those
records (appended end-to-end, no trimming, no replacement); the turn's
other fields are untouched. -/
theorem accumulation_is_ordered_concat (aid : String) (rs : List Json)
    (ms : List Msg) (i : Nat) (m : Msg)
    (hv : ∀ j ∈ rs, validRecord j = true)
    (hm : ms[i]? = some m) (hid : m.id = aid) :
    (applyEvents aid (recordEvents rs) ms)[i]?
      = some { m with content := m.content ++ (rs.map contentField).flatten } := by
  induction rs generalizing ms m with
  | nil =>
    simpa [recordEvents, applyEvents] using hm
  | cons r rs ih =>
    have hvr : validRecord r = true := hv r (List.mem_cons_self r rs)
    have hvs : ∀ j ∈ rs, validRecord j = true :=
      fun j hj => hv j (List.mem_cons_of_mem r hj)
    have hcf := contentField_eq_getD r hvr
    cases hd : deltaOf r with
    | none =>
      have hre : recordEvents (r :: rs) = recordEvents rs := by
        simp [recordEvents, hd]
      rw [hre]
      rw [hd] at hcf
      simpa [hcf] using ih ms m hvs hm hid
    | some s =>
      have hre : recordEvents (r :: rs) = Ev.delta s :: recordEvents rs := by
        simp [recordEvents, hd]
      rw [hre]
      rw [hd] at hcf
      have hm' : (applyEv aid ms (Ev.delta s))[i]?
          = some { m with content := m.content ++ s } :=
        applyDelta_at_target hm hid s
      have hstep := ih (applyEv aid ms (Ev.delta s))
        { m with content := m.content ++ s } hvs hm' hid
      simpa [applyEvents, hcf, List.append_assoc] using hstep

/-- Witness for C2: the two-record stream of Scenario A (`Hel` then `lo`)
accumulated onto an empty assistant turn yields `Hello`. -/
theorem accumulation_is_ordered_concat_witness :
    (∀ j ∈ [Json.obj (JFields.cons ("message".data)
        (Json.obj (JFields.cons ("content".data) (Json.str ("Hel".data))
          JFields.nil)) JFields.nil),
      Json.obj (JFields.cons ("message".data)
        (Json.obj (JFields.cons ("content".data) (Json.str ("lo".data))
          JFields.nil)) JFields.nil)], validRecord j = true)
    ∧ ([⟨"user", "hi".data, none, 1, "u1"⟩,
        ⟨"assistant", [], none, 2, "a1"⟩] : List Msg)[1]?
        = some ⟨"assistant", [], none, 2, "a1"⟩
    ∧ (⟨"assistant", [], none, 2, "a1"⟩ : Msg).id = "a1"
    ∧ (applyEvents "a1" (recordEvents
        [Json.obj (JFields.cons ("message".data)
          (Json.obj (JFields.cons ("content".data) (Json.str ("Hel".data))
            JFields.nil)) JFields.nil),
         Json.obj (JFields.cons ("message".data)
          (Json.obj (JFields.cons ("content".data) (Json.str ("lo".data))
            JFields.nil)) JFields.nil)])
        [⟨"user", "hi".data, none, 1, "u1"⟩,
         ⟨"assistant", [], none, 2, "a1"⟩])[1]?
      = some { (⟨"assistant", [], none, 2, "a1"⟩ : Msg) with
          content := ([] : List Char) ++
            ([Json.obj (JFields.cons ("message".data)
              (Json.obj (JFields.cons ("content".data) (Json.str ("Hel".data))
                JFields.nil)) JFields.nil),
              Json.obj (JFields.cons ("message".data)
              (Json.obj (JFields.cons ("content".data) (Json.str ("lo".data))
                JFields.nil)) JFields.nil)].map contentField).flatten } :=
  ⟨by decide, by decide, by decide,
    accumulation_is_ordered_concat "a1"
      [Json.obj (JFields.cons ("message".data)
        (Json.obj (JFields.cons ("content".data) (Json.str ("Hel".data))
          JFields.nil)) JFields.nil),
       Json.obj (JFields.cons ("message".data)
        (Json.obj (JFields.cons ("content".data) (Json.str ("lo".data))
          JFields.nil)) JFields.nil)]
      [⟨"user", "hi".data, none, 1, "u1"⟩,
       ⟨"assistant", [], none, 2, "a1"⟩] 1
      ⟨"assistant", [], none, 2, "a1"⟩ (by decide) (by decide) (by decide)⟩

/-- If a pattern starting with `<` is a prefix of `ys` and `xs` contains
no `<`, the first occurrence of the pattern in `xs ++ ys` is exactly at
position `xs.length`. -/
theorem findSub_append_left (pat xs ys : List Char)
    (hh : pat.head? = some '<') (hx : '<' ∉ xs)
    (hy : pat.isPrefixOf ys = true) :
    findSub pat (xs ++ ys) = some xs.length := by
  obtain ⟨pt, rfl⟩ : ∃ pt, pat = '<' :: pt := by
    cases pat with
    | nil => simp at hh
    | cons p0 pt =>
      simp only [List.head?_cons, Option.some.injEq] at hh
      exact ⟨pt, by rw [hh]⟩
  induction xs with
  | nil =>
    cases ys with
    | nil => simp [List.isPrefixOf] at hy
    | cons y ys' => simp [findSub, hy]
  | cons c xs ih =>
    have hc : (('<' : Char) == c) = false := by
      rw [beq_eq_false_iff_ne]
      intro h
      exact hx (h ▸ List.mem_cons_self '<' xs)
    have hx' : '<' ∉ xs := fun h => hx (List.mem_cons_of_mem c h)
    have hpre : (('<' :: pt).isPrefixOf (c :: (xs ++ ys))) = false := by
      simp [List.isPrefixOf, hc]
    rw [List.cons_append, findSub, hpre]
    simp [ih hx']

/-- C8: only the first reasoning region is recognized — on any text made
of a prefix `p`, a first `<think>…</think>` region with content `a`, and
a second complete region further on, the splitter extracts `a` as the
reasoning segment and leaves the second region (markers and enclosed text)
verbatim inside the body segment.  (`p` and `a` are marker-free: they
contain no `<`.) -/
theorem splitThink_only_first_region (p a q b r : List Char)
    (hp : '<' ∉ p) (ha : '<' ∉ a) :
    splitThink (p ++ (OPENTAG ++ (a ++ (CLOSETAG ++
        (q ++ (OPENTAG ++ (b ++ (CLOSETAG ++ r))))))))
      = (some a, p ++ (q ++ (OPENTAG ++ (b ++ (CLOSETAG ++ r))))) := by
  have hopen : OPENTAG.isPrefixOf (OPENTAG ++ (a ++ (CLOSETAG ++
      (q ++ (OPENTAG ++ (b ++ (CLOSETAG ++ r))))))) = true :=
    List.isPrefixOf_iff_prefix.mpr ( List.prefix_append _ _)
  have h1 := findSub_append_left OPENTAG p _ (by decide) hp hopen
  have hclose : CLOSETAG.isPrefixOf (CLOSETAG ++
      (q ++ (OPENTAG ++ (b ++ (CLOSETAG ++ r))))) = true :=
    List.isPrefixOf_iff_prefix.mpr ( List.prefix_append _ _)
  have h2 := findSub_append_left CLOSETAG a _ (by decide) ha hclose
  have hdrop1 : (p ++ (OPENTAG ++ (a ++ (CLOSETAG ++
      (q ++ (OPENTAG ++ (b ++ (CLOSETAG ++ r)))))))).drop
        (p.length + OPENTAG.length)
      = a ++ (CLOSETAG ++ (q ++ (OPENTAG ++ (b ++ (CLOSETAG ++ r))))) := by
    rw [← List.append_assoc]
    exact List.drop_left' (by simp)
  have htake1 : (p ++ (OPENTAG ++ (a ++ (CLOSETAG ++
      (q ++ (OPENTAG ++ (b ++ (CLOSETAG ++ r)))))))).take p.length = p :=
    List.take_left' rfl
  have hdrop2 : (a ++ (CLOSETAG ++ (q ++ (OPENTAG ++ (b ++
      (CLOSETAG ++ r)))))).drop (a.length + CLOSETAG.length)
      = q ++ (OPENTAG ++ (b ++ (CLOSETAG ++ r))) := by
    rw [← List.append_assoc]
    exact List.drop_left' (by simp)
  have htake2 : (a ++ (CLOSETAG ++ (q ++ (OPENTAG ++ (b ++
      (CLOSETAG ++ r)))))).take a.length = a :=
    List.take_left' rfl
  simp only [splitThink, h1, hdrop1, h2, htake1, hdrop2, htake2]

/-- Witness for C8 on a concrete two-region input. -/
theorem splitThink_only_first_region_witness :
    ('<' ∉ ("x".data)) ∧ ('<' ∉ ("ab".data))
    ∧ splitThink ("x".data ++ (OPENTAG ++ ("ab".data ++ (CLOSETAG ++
        ("q1".data ++ (OPENTAG ++ ("b2".data ++ (CLOSETAG ++ "r3".data))))))))
      = (some ("ab".data),
          "x".data ++ ("q1".data ++ (OPENTAG ++ ("b2".data ++
            (CLOSETAG ++ "r3".data))))) :=
  ⟨by decide, by decide,
    splitThink_only_first_region ("x".data) ("ab".data) ("q1".data)
      ("b2".data) ("r3".data) (by decide) (by decide)⟩

/-- The scheme-prepending step always leaves a scheme prefix. -/
theorem hasScheme_withScheme (cs : List Char) :
    hasScheme (withScheme cs) = true := by
  unfold withScheme
  cases hs : hasScheme cs with
  | true => simp [hs]
  | false =>
    simp only [hs, Bool.false_eq_true, if_false]
    unfold hasScheme
    rw [Bool.or_eq_true]
    exact Or.inl ( List.isPrefixOf_iff_prefix.mpr ( List.prefix_append _ _))

/-- A prefix that itself ends in `//` stays a prefix after the final
slash of `ys ++ [/]` is dropped, provided the whole string does not end
in `//`. -/
theorem schemePrefix_dropLast {sch ys : List Char}
    (hsuf : ['/', '/'] <:+ sch) (hpref : sch <+: ys ++ ['/'])
    (h : ¬ (['/', '/'] <:+ ys ++ ['/'])) : sch <+: ys := by
  by_cases hlen : sch.length ≤ ys.length
  · exact List.prefix_of_prefix_length_le hpref ( List.prefix_append ys ['/']) hlen
  · exfalso
    have hle := hpref.length_le
    have heq : sch.length = (ys ++ ['/']).length := by
      simp only [List.length_append, List.length_cons, List.length_nil] at hle ⊢
      omega
    exact h ((hpref.eq_of_length heq) ▸ hsuf)

/-- If `ys ++ [/]` does not end in `//`, then `ys` does not end in a
slash. -/
theorem getLast_ne_slash_of_not_doubleslash {ys : List Char}
    (h : ¬ (['/', '/'] <:+ ys ++ ['/'])) : ys.getLast? ≠ some '/' := by
  intro hc
  rcases List.getLast?_eq_some_iff.mp hc with ⟨zs, rfl⟩
  exact h ⟨zs, by simp⟩

/-- C9 amended: for every input whose trimmed, scheme-prefixed form does
not end in two consecutive slashes, `normalizeHost` returns a string that
starts with `http://` or `https://` and does not end with a slash.  (The
implementation removes exactly one trailing slash, so inputs whose
scheme-prefixed form ends in `//` — e.g. `http://localhost//`, or the
inputs `\x22\x22` and `http://` themselves — escape the claimed
postcondition; see the counterexample.) -/
theorem normalizeHost_scheme_and_no_trailing_slash (host : String)
    (h : ¬ (['/', '/'] <:+ withScheme (jsTrim host.data))) :
    hasScheme (normalizeHost host).data = true
    ∧ (normalizeHost host).data.getLast? ≠ some '/' := by
  have hpref := hasScheme_withScheme (jsTrim host.data)
  have hd : (normalizeHost host).data
      = stripOneTrailingSlash (withScheme (jsTrim host.data)) := rfl
  rw [hd]
  unfold stripOneTrailingSlash
  by_cases hlast : (withScheme (jsTrim host.data)).getLast? = some '/'
  · rcases List.getLast?_eq_some_iff.mp hlast with ⟨ys, hys⟩
    rw [hys] at h hpref ⊢
    simp only [List.getLast?_append, List.getLast?_cons, if_pos] at *
    rw [if_pos (by simp), List.dropLast_concat]
    constructor
    · unfold hasScheme at hpref ⊢
      rw [Bool.or_eq_true] at hpref ⊢
      rcases hpref with h1 | h1
      · exact Or.inl ( List.isPrefixOf_iff_prefix.mpr
          (schemePrefix_dropLast (by decide)
            ( List.isPrefixOf_iff_prefix.mp h1) h))
      · exact Or.inr ( List.isPrefixOf_iff_prefix.mpr
          (schemePrefix_dropLast (by decide)
            ( List.isPrefixOf_iff_prefix.mp h1) h))
    · exact getLast_ne_slash_of_not_doubleslash h
  · rw [if_neg hlast]
    exact ⟨hpref, hlast⟩

/-- Witness for C9 amended at input `example.com/`: the output is
`http://example.com` — scheme-prefixed, no trailing slash. -/
theorem normalizeHost_scheme_and_no_trailing_slash_witness :
    (¬ (['/', '/'] <:+ withScheme (jsTrim ("example.com/").data)))
    ∧ (hasScheme (normalizeHost "example.com/").data = true
      ∧ (normalizeHost "example.com/").data.getLast? ≠ some '/') :=
  ⟨by decide, normalizeHost_scheme_and_no_trailing_slash "example.com/" (by decide)⟩

/-- Witness for C5 at a concrete transport outcome (network failure). -/
theorem streamChat_exactly_one_completion_witness :
    (streamChatEvents (FetchResult.netError ("Failed to fetch".data))).countP isDoneEv
      + (streamChatEvents (FetchResult.netError ("Failed to fetch".data))).countP isErrEv
      = 1 :=
  streamChat_exactly_one_completion (FetchResult.netError ("Failed to fetch".data))
